import Mathlib

/-!
Verification of the Session Memory Store (`src/memory_service.py`).

The store keeps an ordered list of memory entries in memory, mirrored to a
single JSON file.  We embed the Python module shallowly:

* JSON-serializable Python values become the inductive `JValue`; dicts become
  association lists `List (String × JValue)` (keys unique in practice, lookup
  is first-match, as for a Python dict).
* The backing file becomes `FileContent`: `missing` (no file,
  `FileNotFoundError` on read), `corrupt` (present but `json.load` fails with
  `JSONDecodeError`), or `stored` (a decoded list of entries).  The
  possibility that a write raises is abstracted by the flag
  `FileSystem.writable`; `json.dump`/`open` for write succeed exactly when it
  is true.
* `datetime.now().isoformat()` is external input; each ingestion takes the
  produced timestamp string as an explicit argument `now`.
* `print` warnings become an explicit `warnings` log in the state, so that
  "the failure is reported" is visible in the model.
* Every operation is a total Lean function; a Python exception escaping to
  the caller would be modelled by an `Except`/`Option` result, and the fact
  that an operation's result type here is plain (no error channel) is the
  model-level statement that it never raises.
-/

namespace MemoryServiceModel

/-- A JSON-serializable Python value (`Any` restricted to what `json` can
dump): `None`, booleans, integers, strings, lists and dicts. -/
inductive JValue where
  | jnull : JValue
  | jbool : Bool → JValue
  | jnum : Int → JValue
  | jstr : String → JValue
  | jarr : List JValue → JValue
  | jobj : List (String × JValue) → JValue

mutual
/-- Python `==`/`!=` on JSON values: structural equality. -/
def jbeq : JValue → JValue → Bool
  | JValue.jnull, JValue.jnull => true
  | JValue.jbool a, JValue.jbool b => a == b
  | JValue.jnum a, JValue.jnum b => a == b
  | JValue.jstr a, JValue.jstr b => a == b
  | JValue.jarr xs, JValue.jarr ys => jbeqArr xs ys
  | JValue.jobj kvs, JValue.jobj kws => jbeqObj kvs kws
  | _, _ => false

/-- Elementwise equality of JSON arrays. -/
def jbeqArr : List JValue → List JValue → Bool
  | [], [] => true
  | x :: xs, y :: ys => jbeq x y && jbeqArr xs ys
  | _, _ => false

/-- Pairwise equality of JSON object fields. -/
def jbeqObj : List (String × JValue) → List (String × JValue) → Bool
  | [], [] => true
  | (k, v) :: kvs, (l, w) :: kws => k == l && jbeq v w && jbeqObj kvs kws
  | _, _ => false
end

instance : BEq JValue := ⟨jbeq⟩

/-- One record of the store (`memory_entry` built in
`add_session_to_memory`): always has the four fields `timestamp`,
`user_id`, `session_data`, `metadata`. -/
structure MemoryEntry where
  timestamp : String
  user_id : Option String
  session_data : List (String × JValue)
  metadata : List (String × JValue)
deriving BEq

/-- What lives at the storage path. -/
inductive FileContent where
  | missing : FileContent
  | corrupt (raw : String) : FileContent
  | stored (entries : List MemoryEntry) : FileContent
deriving BEq

/-- The storage location: its content, and whether writes to it succeed. -/
structure FileSystem where
  content : FileContent
  writable : Bool
deriving BEq

/-- The state of one `MemoryService` instance together with its file and the
warnings it has printed. -/
structure ServiceState where
  memories : List MemoryEntry
  file : FileSystem
  warnings : List String
deriving BEq

/-- Python truthiness of an `Optional[str]`: `None` and `""` are falsy. -/
def pyTruthy : Option String → Bool
  | none => false
  | some s => !(s == "")

/-- Python truthiness of an `Optional[dict]`: `None` and `{}` are falsy. -/
def pyTruthyDict : Option (List (String × JValue)) → Bool
  | none => false
  | some l => !l.isEmpty

/-- `_load_memories`: read and decode the file; `FileNotFoundError` and
`json.JSONDecodeError` both degrade to the empty list. -/
def load_memories (file : FileSystem) : List MemoryEntry :=
  match file.content with
  | FileContent.stored entries => entries
  | FileContent.missing => []
  | FileContent.corrupt _ => []

/-- `__init__`: set the path (implicit here), start from `[]`, then load. -/
def initService (file : FileSystem) : ServiceState :=
  { memories := load_memories file, file := file, warnings := [] }

/-- `_save_memories`: dump the in-memory list to the file; any exception is
caught locally and reported as a printed warning, never rethrown. -/
def save_memories (s : ServiceState) : ServiceState :=
  if s.file.writable then
    { s with file := { s.file with content := FileContent.stored s.memories } }
  else
    { s with warnings := s.warnings ++ ["Warning: Failed to save memories"] }

/-- `add_session_to_memory`: build the entry (timestamp from the caller's
clock reading `now`, `metadata or ` defaulting to the empty dict), append,
save, return `True`.  The construction and the append are total, and
`_save_memories` catches every exception itself, so the `except` branch
returning `False` is unreachable: the returned flag is always `true`. -/
def add_session_to_memory (s : ServiceState)
    (session_data : List (String × JValue)) (user_id : Option String)
    (metadata : Option (List (String × JValue))) (now : String) :
    ServiceState × Bool :=
  let memory_entry : MemoryEntry :=
    { timestamp := now, user_id := user_id, session_data := session_data,
      metadata := metadata.getD [] }
  let s' := save_memories { s with memories := s.memories ++ [memory_entry] }
  (s', true)

mutual
/-- `json.dumps` of a value, with the default separators. -/
def dumpsVal : JValue → String
  | JValue.jnull => "null"
  | JValue.jbool true => "true"
  | JValue.jbool false => "false"
  | JValue.jnum n => toString n
  | JValue.jstr s => "\"" ++ s ++ "\""
  | JValue.jarr xs => "[" ++ dumpsArr xs ++ "]"
  | JValue.jobj kvs => "\x7b" ++ dumpsObj kvs ++ "\x7d"

/-- The comma-separated items of a JSON array. -/
def dumpsArr : List JValue → String
  | [] => ""
  | [x] => dumpsVal x
  | x :: y :: xs => dumpsVal x ++ ", " ++ dumpsArr (y :: xs)

/-- The comma-separated `"key": value` pairs of a JSON object. -/
def dumpsObj : List (String × JValue) → String
  | [] => ""
  | [kv] => "\"" ++ kv.1 ++ "\": " ++ dumpsVal kv.2
  | kv :: kw :: kvs =>
      "\"" ++ kv.1 ++ "\": " ++ dumpsVal kv.2 ++ ", " ++ dumpsObj (kw :: kvs)
end

/-- `json.dumps` of a dict (the `session_data` field). -/
def dumpsDict (d : List (String × JValue)) : String :=
  "\x7b" ++ dumpsObj d ++ "\x7d"

/-- Whether the first character list starts the second. -/
def charsPrefix : List Char → List Char → Bool
  | [], _ => true
  | _ :: _, [] => false
  | a :: as, b :: bs => a == b && charsPrefix as bs

/-- Whether the first character list occurs contiguously in the second. -/
def charsSub (p : List Char) : List Char → Bool
  | [] => p.isEmpty
  | c :: cs => charsPrefix p (c :: cs) || charsSub p cs

/-- Python `a in b` on strings: `a` occurs as a contiguous substring of `b`. -/
def strIn (a b : String) : Bool :=
  charsSub a.data b.data

/-- The `filters` loop of `search_memory`: `match` stays `True` unless some
filter key is present in the entry's metadata with a different value. -/
def matches_filters (filters : List (String × JValue))
    (md : List (String × JValue)) : Bool :=
  filters.all fun kv =>
    match md.lookup kv.1 with
    | none => true
    | some w => w == kv.2

/-- The per-entry body of the `search_memory` loop: the three `continue`
guards (user, filters, query), in source order. -/
def entry_matches (query : Option String) (user_id : Option String)
    (filters : Option (List (String × JValue))) (m : MemoryEntry) : Bool :=
  if pyTruthy user_id && m.user_id != user_id then false
  else if pyTruthyDict filters && !matches_filters (filters.getD []) m.metadata then
    false
  else if pyTruthy query &&
      !strIn (query.getD "").toLower (dumpsDict m.session_data).toLower then
    false
  else true

/-- The `for memory in self.memories` loop of `search_memory` with its
`break` once `len(results) >= limit`. -/
def searchGo (limit : Int) (pred : MemoryEntry → Bool) :
    List MemoryEntry → List MemoryEntry → List MemoryEntry
  | results, [] => results
  | results, m :: rest =>
    if pred m then
      let results' := results ++ [m]
      if limit ≤ (results'.length : Int) then results'
      else searchGo limit pred results' rest
    else searchGo limit pred results rest

/-- `search_memory`: scan the store in order, collecting entries that pass
the user, filters and query guards, stopping at `limit`. -/
def search_memory (s : ServiceState) (query : Option String)
    (user_id : Option String) (limit : Int)
    (filters : Option (List (String × JValue))) : List MemoryEntry :=
  searchGo limit (entry_matches query user_id filters) [] s.memories

/-- The sort key `lambda x: x.get("timestamp", "")` (the field is always
present), as its character list: Python compares strings lexicographically by
code point, which is the lexicographic order on `List Char`. -/
def tsKey (m : MemoryEntry) : List Char :=
  m.timestamp.data

/-- The order `sorted(..., key=..., reverse=True)` sorts into: `a` may
precede `b` when `b`'s timestamp is at most `a`'s.  Python's sort is stable,
which insertion sort with this total preorder is. -/
def tsDescOrder (a b : MemoryEntry) : Prop :=
  tsKey b ≤ tsKey a

instance : DecidableRel tsDescOrder := fun a b =>
  inferInstanceAs (Decidable (tsKey b ≤ tsKey a))

instance : IsTotal MemoryEntry tsDescOrder :=
  ⟨fun a b => le_total (tsKey b) (tsKey a)⟩

instance : IsTrans MemoryEntry tsDescOrder :=
  ⟨fun _ _ _ h1 h2 => le_trans h2 h1⟩

/-- Python slicing `l[:n]`: a nonnegative `n` keeps the first `n` elements
(clamped to the length); a negative `n` drops the last `-n`. -/
def pySliceTo (l : List α) (n : Int) : List α :=
  if 0 ≤ n then l.take n.toNat
  else l.take ((l.length : Int) + n).toNat

/-- `get_recent_memories`: filter to the user when the argument is truthy,
stable-sort by timestamp descending, take the first `count`. -/
def get_recent_memories (s : ServiceState) (count : Int)
    (user_id : Option String) : List MemoryEntry :=
  pySliceTo
    (List.insertionSort tsDescOrder
      (if pyTruthy user_id then
        s.memories.filter (fun m => m.user_id == user_id)
      else s.memories))
    count

/-- `clear_memory`: keep only other users' entries when `user_id` is truthy,
drop everything otherwise; then save. -/
def clear_memory (s : ServiceState) (user_id : Option String) : ServiceState :=
  save_memories
    (if pyTruthy user_id then
      { s with memories := s.memories.filter (fun m => m.user_id != user_id) }
    else
      { s with memories := [] })

/-- The dictionary `get_memory_stats` returns. -/
structure MemoryStats where
  total_memories : Nat
  unique_users : Nat
  oldest_memory : Option String
  newest_memory : Option String
deriving BEq

/-- `get_memory_stats`: length, cardinality of the set of truthy user ids,
first and last timestamps (or `None` on an empty store). -/
def get_memory_stats (s : ServiceState) : MemoryStats :=
  { total_memories := s.memories.length,
    unique_users :=
      ((s.memories.filterMap fun m =>
        if pyTruthy m.user_id then m.user_id else none).dedup).length,
    oldest_memory := s.memories.head?.map (fun m => m.timestamp),
    newest_memory := s.memories.getLast?.map (fun m => m.timestamp) }

/-- The arguments of one Ingest call, the clock reading included. -/
structure IngestCall where
  session_data : List (String × JValue)
  user_id : Option String
  metadata : Option (List (String × JValue))
  now : String

/-- The entry an Ingest call constructs. -/
def IngestCall.entry (c : IngestCall) : MemoryEntry :=
  { timestamp := c.now, user_id := c.user_id, session_data := c.session_data,
    metadata := c.metadata.getD [] }

/-- Run a sequence of Ingest calls, discarding the boolean results. -/
def ingestAll (s : ServiceState) : List IngestCall → ServiceState
  | [] => s
  | c :: cs =>
      ingestAll
        (add_session_to_memory s c.session_data c.user_id c.metadata c.now).1 cs

/-- A writable storage location holding an empty array. -/
def writableFS : FileSystem :=
  { content := FileContent.stored [], writable := true }

/-- A storage location with no file that rejects writes (an unwritable
directory, say). -/
def brokenFS : FileSystem :=
  { content := FileContent.missing, writable := false }

/-- Entry of user "A" at the earliest of the three example times. -/
def entryA : MemoryEntry :=
  { timestamp := "2024-05-01T10:00:00", user_id := some "A",
    session_data := [("user_query", JValue.jstr "Is PETE recyclable?")],
    metadata := [("agent", JValue.jstr "location_agent")] }

/-- Entry of user "B" at the middle example time. -/
def entryB : MemoryEntry :=
  { timestamp := "2024-05-01T11:00:00", user_id := some "B",
    session_data := [], metadata := [] }

/-- Unscoped entry (`user_id` is `None`) at the latest example time. -/
def entryNoUser : MemoryEntry :=
  { timestamp := "2024-05-01T12:00:00", user_id := none,
    session_data := [], metadata := [] }

/-- Entry whose `user_id` is the empty string: present, not `None`. -/
def entryEmptyUser : MemoryEntry :=
  { timestamp := "2024-05-01T13:00:00", user_id := some "",
    session_data := [], metadata := [] }

/-- A store of three entries with strictly increasing timestamps. -/
def exState3 : ServiceState :=
  { memories := [entryA, entryB, entryNoUser], file := writableFS,
    warnings := [] }

/-- An empty, freshly constructed store over writable storage. -/
def exEmpty : ServiceState :=
  { memories := [], file := writableFS, warnings := [] }

/-- An example Ingest call for user "A". -/
def callA : IngestCall :=
  { session_data := [("user_query", JValue.jstr "Is PETE recyclable?")],
    user_id := some "A",
    metadata := some [("agent", JValue.jstr "location_agent")],
    now := "2024-05-01T10:00:00" }

/-- An example Ingest call with no user and defaulted metadata. -/
def callB : IngestCall :=
  { session_data := [], user_id := none, metadata := none,
    now := "2024-05-01T11:00:00" }

mutual
/-- `jbeq` is reflexive. -/
theorem jbeq_refl : ∀ a : JValue, jbeq a a = true
  | JValue.jnull => rfl
  | JValue.jbool b => by simp [jbeq]
  | JValue.jnum n => by simp [jbeq]
  | JValue.jstr s => by simp [jbeq]
  | JValue.jarr xs => by simpa [jbeq] using jbeqArr_refl xs
  | JValue.jobj kvs => by simpa [jbeq] using jbeqObj_refl kvs

/-- `jbeqArr` is reflexive. -/
theorem jbeqArr_refl : ∀ xs : List JValue, jbeqArr xs xs = true
  | [] => rfl
  | x :: xs => by simp [jbeqArr, jbeq_refl x, jbeqArr_refl xs]

/-- `jbeqObj` is reflexive. -/
theorem jbeqObj_refl : ∀ kvs : List (String × JValue), jbeqObj kvs kvs = true
  | [] => rfl
  | (k, v) :: kvs => by simp [jbeqObj, jbeq_refl v, jbeqObj_refl kvs]
end

mutual
/-- `jbeq` is sound for equality. -/
theorem jbeq_eq : ∀ a b : JValue, jbeq a b = true → a = b
  | JValue.jnull, b, h => by cases b <;> simp_all [jbeq]
  | JValue.jbool a, b, h => by cases b <;> simp_all [jbeq]
  | JValue.jnum a, b, h => by cases b <;> simp_all [jbeq]
  | JValue.jstr a, b, h => by cases b <;> simp_all [jbeq]
  | JValue.jarr xs, JValue.jarr ys, h => by
      rw [jbeqArr_eq xs ys (by simpa [jbeq] using h)]
  | JValue.jarr xs, JValue.jnull, h => by simp [jbeq] at h
  | JValue.jarr xs, JValue.jbool _, h => by simp [jbeq] at h
  | JValue.jarr xs, JValue.jnum _, h => by simp [jbeq] at h
  | JValue.jarr xs, JValue.jstr _, h => by simp [jbeq] at h
  | JValue.jarr xs, JValue.jobj _, h => by simp [jbeq] at h
  | JValue.jobj kvs, JValue.jobj kws, h => by
      rw [jbeqObj_eq kvs kws (by simpa [jbeq] using h)]
  | JValue.jobj kvs, JValue.jnull, h => by simp [jbeq] at h
  | JValue.jobj kvs, JValue.jbool _, h => by simp [jbeq] at h
  | JValue.jobj kvs, JValue.jnum _, h => by simp [jbeq] at h
  | JValue.jobj kvs, JValue.jstr _, h => by simp [jbeq] at h
  | JValue.jobj kvs, JValue.jarr _, h => by simp [jbeq] at h

/-- `jbeqArr` is sound for equality. -/
theorem jbeqArr_eq : ∀ xs ys : List JValue, jbeqArr xs ys = true → xs = ys
  | [], [], _ => rfl
  | [], _ :: _, h => by simp [jbeqArr] at h
  | _ :: _, [], h => by simp [jbeqArr] at h
  | x :: xs, y :: ys, h => by
      have h' := h
      simp only [jbeqArr, Bool.and_eq_true] at h'
      rw [jbeq_eq x y h'.1, jbeqArr_eq xs ys h'.2]

/-- `jbeqObj` is sound for equality. -/
theorem jbeqObj_eq :
    ∀ kvs kws : List (String × JValue), jbeqObj kvs kws = true → kvs = kws
  | [], [], _ => rfl
  | [], _ :: _, h => by simp [jbeqObj] at h
  | _ :: _, [], h => by simp [jbeqObj] at h
  | (k, v) :: kvs, (l, w) :: kws, h => by
      have h' := h
      simp only [jbeqObj, Bool.and_eq_true] at h'
      obtain ⟨⟨hk, hv⟩, ht⟩ := h'
      rw [eq_of_beq hk, jbeq_eq v w hv, jbeqObj_eq kvs kws ht]
end

/-- The model's `==` on JSON values decides equality. -/
theorem jbeq_iff_eq (a b : JValue) : (a == b) = true ↔ a = b :=
  ⟨jbeq_eq a b, fun h => h ▸ jbeq_refl a⟩

/-- The filters loop passes exactly when every filter key that occurs in the
metadata carries the filter's value there. -/
theorem matches_filters_iff (fl md : List (String × JValue)) :
    matches_filters fl md = true ↔
      ∀ k v, (k, v) ∈ fl → ∀ w, md.lookup k = some w → w = v := by
  simp only [matches_filters, List.all_eq_true]
  constructor
  · intro h k v hkv w hw
    have hx := h (k, v) hkv
    rw [hw] at hx
    exact (jbeq_eq w v hx).symm ▸ rfl
  · intro h kv hkv
    obtain ⟨k, v⟩ := kv
    cases hlk : md.lookup k with
    | none => simp [hlk]
    | some w =>
        simp only [hlk]
        exact (h k v hkv w hlk) ▸ jbeq_refl w

/-- A `continue` chain `if c then false else x`, as a conjunction. -/
theorem if_false_else (c x : Bool) :
    (if c then false else x) = (!c && x) := by
  cases c <;> simp

/-- An entry passes the whole per-entry check exactly when each of the three
guards lets it through. -/
theorem entry_matches_eq (query user_id : Option String)
    (filters : Option (List (String × JValue))) (m : MemoryEntry) :
    entry_matches query user_id filters m =
      (!(pyTruthy user_id && m.user_id != user_id) &&
       (!(pyTruthyDict filters &&
          !matches_filters (filters.getD []) m.metadata) &&
        !(pyTruthy query &&
          !strIn (query.getD "").toLower (dumpsDict m.session_data).toLower))) := by
  unfold entry_matches
  rw [if_false_else, if_false_else, if_false_else]
  simp

/-- A passing entry passed the filters: either the dict was truthy and the
loop succeeded, or it was `None`/empty, in which case the loop is vacuous. -/
theorem entry_matches_filters {query user_id fl m}
    (h : entry_matches query user_id (some fl) m = true) :
    matches_filters fl m.metadata = true := by
  rw [entry_matches_eq] at h
  simp only [Bool.and_eq_true, Bool.not_eq_true'] at h
  cases fl with
  | nil => rfl
  | cons kv fl =>
      have hd : pyTruthyDict (some (kv :: fl)) = true := by
        simp [pyTruthyDict]
      rcases Bool.and_eq_false_iff.mp h.2.1 with hc | hc
      · rw [hd] at hc; cases hc
      · simpa using hc

/-- A passing entry belongs to the user when the user filter is truthy. -/
theorem entry_matches_user {query fl m} {u : String} (hu : u ≠ "")
    (h : entry_matches query (some u) fl m = true) :
    m.user_id = some u := by
  rw [entry_matches_eq] at h
  simp only [Bool.and_eq_true, Bool.not_eq_true'] at h
  have ht : pyTruthy (some u) = true := by
    simp [pyTruthy, hu]
  rcases Bool.and_eq_false_iff.mp h.1 with hc | hc
  · rw [ht] at hc; cases hc
  · simpa [bne] using hc

/-- Everything the search loop returns was already collected or passed the
per-entry check. -/
theorem searchGo_mem {limit : Int} {pred : MemoryEntry → Bool} :
    ∀ (l acc : List MemoryEntry) (m : MemoryEntry),
      m ∈ searchGo limit pred acc l → m ∈ acc ∨ (pred m = true ∧ m ∈ l)
  | [], acc, m, h => Or.inl h
  | e :: rest, acc, m, h => by
      unfold searchGo at h
      by_cases hp : pred e = true
      · rw [if_pos hp] at h
        by_cases hl : limit ≤ ((acc ++ [e]).length : Int)
        · rw [if_pos hl] at h
          rcases List.mem_append.mp h with hm | hm
          · exact Or.inl hm
          · rcases List.mem_singleton.mp hm with rfl
            exact Or.inr ⟨hp, List.mem_cons_self _ _⟩
        · rw [if_neg hl] at h
          rcases searchGo_mem rest (acc ++ [e]) m h with hm | hm
          · rcases List.mem_append.mp hm with hm' | hm'
            · exact Or.inl hm'
            · rcases List.mem_singleton.mp hm' with rfl
              exact Or.inr ⟨hp, List.mem_cons_self _ _⟩
          · exact Or.inr ⟨hm.1, List.mem_cons_of_mem _ hm.2⟩
      · rw [if_neg hp] at h
        rcases searchGo_mem rest acc m h with hm | hm
        · exact Or.inl hm
        · exact Or.inr ⟨hm.1, List.mem_cons_of_mem _ hm.2⟩

/-- Everything the search returns passed the per-entry check and came from
the store. -/
theorem search_memory_mem {s query user_id limit filters m}
    (h : m ∈ search_memory s query user_id limit filters) :
    entry_matches query user_id filters m = true ∧ m ∈ s.memories := by
  rcases searchGo_mem s.memories [] m h with hm | hm
  · cases hm
  · exact hm

/-- While fewer than `limit` results are collected, the loop never grows the
result list beyond `limit`. -/
theorem searchGo_length {limit : Int} {pred : MemoryEntry → Bool} :
    ∀ (l acc : List MemoryEntry), (acc.length : Int) < limit →
      ((searchGo limit pred acc l).length : Int) ≤ limit
  | [], acc, h => le_of_lt h
  | e :: rest, acc, h => by
      unfold searchGo
      by_cases hp : pred e = true
      · rw [if_pos hp]
        have hlen : (((acc ++ [e]).length : Nat) : Int) = (acc.length : Int) + 1 := by
          simp
        by_cases hl : limit ≤ ((acc ++ [e]).length : Int)
        · rw [if_pos hl]
          omega
        · rw [if_neg hl]
          exact searchGo_length rest (acc ++ [e]) (lt_of_not_le hl)
      · rw [if_neg hp]
        exact searchGo_length rest acc h

/-- With a nonpositive limit the loop stops right after its first match. -/
theorem searchGo_length_nonpos {limit : Int} {pred : MemoryEntry → Bool}
    (hl : limit ≤ 0) :
    ∀ l : List MemoryEntry, (searchGo limit pred [] l).length ≤ 1
  | [] => Nat.zero_le 1
  | e :: rest => by
      unfold searchGo
      by_cases hp : pred e = true
      · rw [if_pos hp]
        have hc : limit ≤ ((([] ++ [e] : List MemoryEntry).length : Nat) : Int) := by
          simp
          omega
        rw [if_pos hc]
        simp
      · rw [if_neg hp]
        exact searchGo_length_nonpos hl rest

/-- While fewer than `limit` results are collected, the loop returns the
already collected results followed by the first matches of the remaining
scan, up to the limit: matches are taken in store order and the scan stops
as soon as the limit is reached. -/
theorem searchGo_take {limit : Int} {pred : MemoryEntry → Bool} :
    ∀ (l acc : List MemoryEntry), (acc.length : Int) < limit →
      searchGo limit pred acc l =
        acc ++ (l.filter pred).take (limit - acc.length).toNat
  | [], acc, _ => by simp [searchGo]
  | e :: rest, acc, h => by
      unfold searchGo
      by_cases hp : pred e = true
      · rw [if_pos hp, List.filter_cons_of_pos hp]
        by_cases hl : limit ≤ ((acc ++ [e]).length : Int)
        · rw [if_pos hl]
          have h1 : (limit - acc.length).toNat = 1 := by
            simp only [List.length_append, List.length_cons,
              List.length_nil] at hl
            omega
          rw [h1, List.take_succ_cons, List.take_zero]
        · rw [if_neg hl, searchGo_take rest (acc ++ [e]) (lt_of_not_le hl)]
          have h1 : (limit - acc.length).toNat =
              (limit - ((acc ++ [e]).length : Int)).toNat + 1 := by
            simp only [List.length_append, List.length_cons,
              List.length_nil] at hl ⊢
            push_neg at hl
            omega
          rw [h1, List.take_succ_cons, List.append_assoc]
          rfl
      · rw [if_neg hp, List.filter_cons_of_neg (by simpa using hp),
          searchGo_take rest acc h]

/-- With a nonpositive limit the loop returns the first match alone. -/
theorem searchGo_take_nonpos {limit : Int} {pred : MemoryEntry → Bool}
    (hl : limit ≤ 0) :
    ∀ l : List MemoryEntry, searchGo limit pred [] l = (l.filter pred).take 1
  | [] => by simp [searchGo]
  | e :: rest => by
      unfold searchGo
      by_cases hp : pred e = true
      · rw [if_pos hp, List.filter_cons_of_pos hp]
        have hc : limit ≤ ((([] : List MemoryEntry) ++ [e]).length : Int) := by
          simp
          omega
        rw [if_pos hc, List.take_succ_cons, List.take_zero]
        rfl
      · rw [if_neg hp, List.filter_cons_of_neg (by simpa using hp)]
        exact searchGo_take_nonpos hl rest

/-- For a nonnegative bound Python's `l[:n]` is `take`. -/
theorem pySliceTo_eq_take {α : Type} (l : List α) {n : Int} (h : 0 ≤ n) :
    pySliceTo l n = l.take n.toNat := by
  simp [pySliceTo, h]

/-- A slice `l[:n]` keeps only elements of `l`. -/
theorem pySliceTo_subset {α : Type} (l : List α) (n : Int) :
    pySliceTo l n ⊆ l := by
  unfold pySliceTo
  split
  · exact List.take_subset _ _
  · exact List.take_subset _ _

/-- A slice `l[:n]` is a sublist of `l`. -/
theorem pySliceTo_sublist {α : Type} (l : List α) (n : Int) :
    List.Sublist (pySliceTo l n) l := by
  unfold pySliceTo
  split
  · exact List.take_sublist _ _
  · exact List.take_sublist _ _

/-- What a recency query returns comes from the store, from the user's own
entries when the user filter is truthy. -/
theorem get_recent_memories_mem {s count user_id m}
    (h : m ∈ get_recent_memories s count user_id) :
    m ∈ s.memories ∧ (pyTruthy user_id = true → (m.user_id == user_id) = true) := by
  unfold get_recent_memories at h
  have h1 := pySliceTo_subset _ count h
  have h2 := (List.perm_insertionSort tsDescOrder _).subset h1
  by_cases ht : pyTruthy user_id = true
  · rw [if_pos ht] at h2
    have := List.mem_filter.mp h2
    exact ⟨this.1, fun _ => this.2⟩
  · rw [if_neg ht] at h2
    exact ⟨h2, fun hc => absurd hc ht⟩

/-- One ingestion against writable storage appends the entry, rewrites the
file to the new sequence, and prints nothing. -/
theorem add_writable {s : ServiceState} (hw : s.file.writable = true)
    (c : IngestCall) :
    (add_session_to_memory s c.session_data c.user_id c.metadata c.now).1 =
      { memories := s.memories ++ [c.entry],
        file := { s.file with
                  content := FileContent.stored (s.memories ++ [c.entry]) },
        warnings := s.warnings } := by
  simp [add_session_to_memory, save_memories, hw, IngestCall.entry]

/-- Folding a nonempty batch of ingestions over writable storage appends all
the entries and leaves the file holding exactly the final sequence. -/
theorem ingestAll_spec :
    ∀ (cs : List IngestCall) (s : ServiceState), s.file.writable = true →
      (ingestAll s cs).memories = s.memories ++ cs.map IngestCall.entry ∧
      (ingestAll s cs).file.writable = true ∧
      (cs = [] → (ingestAll s cs).file = s.file) ∧
      (cs ≠ [] →
        (ingestAll s cs).file.content =
          FileContent.stored ((ingestAll s cs).memories))
  | [], s, hw => by simp [ingestAll, hw]
  | c :: cs, s, hw => by
      have hstep := add_writable hw c
      have hw' :
          (add_session_to_memory s c.session_data c.user_id c.metadata
            c.now).1.file.writable = true := by
        rw [hstep]
        exact hw
      obtain ⟨hmem, hwr, hnil, hcons⟩ := ingestAll_spec cs _ hw'
      have hunf :
          ingestAll s (c :: cs) =
            ingestAll
              (add_session_to_memory s c.session_data c.user_id c.metadata
                c.now).1 cs := rfl
      constructor
      · rw [hunf, hmem, hstep]
        simp
      refine ⟨by rw [hunf]; exact hwr, fun hne => absurd hne (by simp), ?_⟩
      intro _
      cases cs with
      | nil =>
          rw [hunf, hnil rfl, hstep]
          simp [ingestAll, hstep]
      | cons c' cs' =>
          rw [hunf]
          exact hcons (by simp)

/-- Saving never changes the in-memory sequence. -/
theorem save_memories_memories (s : ServiceState) :
    (save_memories s).memories = s.memories := by
  unfold save_memories
  split <;> rfl

/-- The truthiness test inside the stats generator picks out exactly the
user ids that are present and non-empty. -/
theorem filterMap_truthy_eq (l : List MemoryEntry) :
    (l.filterMap fun m => if pyTruthy m.user_id then m.user_id else none) =
      ((l.filterMap fun m => m.user_id).filter fun u => decide (u ≠ "")) := by
  induction l with
  | nil => rfl
  | cons m l ih =>
      rw [List.filterMap_cons, List.filterMap_cons]
      cases hm : m.user_id with
      | none => simpa using ih
      | some u =>
          by_cases hu : u = ""
          · subst hu
            have h1 : pyTruthy (some "") = false := by simp [pyTruthy]
            rw [h1]
            simp only [Bool.false_eq_true, if_false, List.filter_cons]
            rw [show (decide (("" : String) ≠ "")) = false by simp]
            exact ih
          · have h1 : pyTruthy (some u) = true := by simp [pyTruthy, hu]
            rw [h1]
            simp only [if_true, List.filter_cons]
            rw [show (decide (u ≠ "")) = true by simp [hu]]
            rw [ih]
            simp

/-- C1: the claim states that a failure during persistence makes Ingest
return `false`.  The code's `_save_memories` catches every exception itself
and only prints a warning, so `add_session_to_memory` still returns `true`:
here an ingestion against an unwritable location leaves the file without
content and prints the warning, yet the returned flag is `true`. -/
theorem c1_counterexample :
    (add_session_to_memory ⟨[], brokenFS, []⟩ [] (some "A") none
        "2024-05-01T10:00:00").2 = true ∧
    (add_session_to_memory ⟨[], brokenFS, []⟩ [] (some "A") none
        "2024-05-01T10:00:00").1.file.content = FileContent.missing ∧
    (add_session_to_memory ⟨[], brokenFS, []⟩ [] (some "A") none
        "2024-05-01T10:00:00").1.warnings =
      ["Warning: Failed to save memories"] :=
  ⟨rfl, rfl, rfl⟩

/-- C1 (amended): Ingest never raises to the caller (it is a total function)
and always returns `true`; on writable storage it persists the appended
sequence and prints nothing, and on a persist failure the failure is caught
inside the save step and reported as a printed warning while the file is
left untouched — the `false` branch is unreachable because construction and
append are total. -/
theorem c1_ingest_error_handling (s : ServiceState)
    (sd : List (String × JValue)) (uid : Option String)
    (md : Option (List (String × JValue))) (now : String) :
    (add_session_to_memory s sd uid md now).2 = true ∧
    (s.file.writable = true →
      (add_session_to_memory s sd uid md now).1.file.content =
        FileContent.stored (s.memories ++
          [{ timestamp := now, user_id := uid, session_data := sd,
             metadata := md.getD [] }]) ∧
      (add_session_to_memory s sd uid md now).1.warnings = s.warnings) ∧
    (s.file.writable = false →
      (add_session_to_memory s sd uid md now).1.file = s.file ∧
      (add_session_to_memory s sd uid md now).1.warnings =
        s.warnings ++ ["Warning: Failed to save memories"]) := by
  refine ⟨rfl, ?_, ?_⟩ <;>
    intro hw <;>
    simp [add_session_to_memory, save_memories, hw]

/-- C2: with a `filters` mapping, an entry passes the filter stage exactly
when every filter key that also occurs in its metadata carries the filter's
value there; a filter key absent from the metadata never excludes the entry,
and every entry Search returns with these filters satisfies the property. -/
theorem c2_filter_semantics (fl : List (String × JValue)) (m : MemoryEntry)
    (s : ServiceState) (query user_id : Option String) (limit : Int) :
    (matches_filters fl m.metadata = true ↔
      ∀ k v, (k, v) ∈ fl → ∀ w, m.metadata.lookup k = some w → w = v) ∧
    (m ∈ search_memory s query user_id limit (some fl) →
      ∀ k v, (k, v) ∈ fl → ∀ w, m.metadata.lookup k = some w → w = v) :=
  ⟨matches_filters_iff fl m.metadata, fun hm =>
    (matches_filters_iff fl m.metadata).mp
      (entry_matches_filters (search_memory_mem hm).1)⟩

/-- C3: the claim states the result length never exceeds `limit` for every
value of `limit`.  The loop appends first and only then compares, so with
`limit = 0` a store whose head matches yields one result, not zero. -/
theorem c3_counterexample :
    (search_memory exState3 none none 0 none).length = 1 ∧
    ¬ ((search_memory exState3 none none 0 none).length ≤ 0) :=
  ⟨rfl, by decide⟩

/-- C3 (amended): for every positive `limit`, Search returns exactly the
first `limit` matches in store order — so at most `limit` entries, with the
scan stopping as soon as that many matches are collected; for a nonpositive
`limit` the break fires right after the first match, so the result is the
first match alone (at most one entry, not zero). -/
theorem c3_limit_bound (s : ServiceState) (query user_id : Option String)
    (filters : Option (List (String × JValue))) (limit : Int) :
    (1 ≤ limit →
      search_memory s query user_id limit filters =
        (s.memories.filter (entry_matches query user_id filters)).take
          limit.toNat ∧
      ((search_memory s query user_id limit filters).length : Int) ≤ limit) ∧
    (limit ≤ 0 →
      search_memory s query user_id limit filters =
        (s.memories.filter (entry_matches query user_id filters)).take 1 ∧
      (search_memory s query user_id limit filters).length ≤ 1) := by
  constructor
  · intro h1
    constructor
    · rw [show search_memory s query user_id limit filters =
          searchGo limit (entry_matches query user_id filters) [] s.memories
          from rfl,
        searchGo_take s.memories [] (by simpa using h1)]
      simp
    · exact searchGo_length s.memories [] (by simpa using h1)
  · intro h0
    exact ⟨searchGo_take_nonpos h0 s.memories, searchGo_length_nonpos h0 s.memories⟩

/-- C4: after any nonempty batch of Ingest calls over writable storage, a
fresh instance constructed against the same location loads exactly the
previous in-memory sequence plus each call's entry — same `session_data`,
`user_id`, defaulted `metadata`, and the timestamp as stored at call time. -/
theorem c4_roundtrip (s : ServiceState) (calls : List IngestCall)
    (hw : s.file.writable = true) (hne : calls ≠ []) :
    (initService (ingestAll s calls).file).memories =
      s.memories ++ calls.map IngestCall.entry := by
  obtain ⟨hmem, _, _, hcons⟩ := ingestAll_spec calls s hw
  simp [initService, load_memories, hcons hne, hmem]

/-- C4 witness: two concrete ingestions into a fresh writable store
round-trip through the file. -/
theorem c4_roundtrip_witness :
    (initService (ingestAll exEmpty [callA, callB]).file).memories =
      exEmpty.memories ++ [callA, callB].map IngestCall.entry :=
  c4_roundtrip exEmpty [callA, callB] rfl (by simp)

/-- C5: construction against a missing location, or against content that
does not decode, initializes the store with the empty sequence; in the model
construction is a total function, so no exception reaches the caller. -/
theorem c5_load_tolerance (w : Bool) (raw : String) :
    (initService { content := FileContent.missing, writable := w }).memories =
      [] ∧
    (initService
        { content := FileContent.corrupt raw, writable := w }).memories = [] :=
  ⟨rfl, rfl⟩

/-- C6: a recency query is sorted by timestamp descending, has at most
`count` entries (for a nonnegative count), draws only from the store —
only from the given user's entries when a truthy user id is supplied — and
on three entries with increasing timestamps `count = 2` returns the latest
two, latest first. -/
theorem c6_recency (s : ServiceState) (count : Int) (user_id : Option String)
    (hc : 0 ≤ count) :
    List.Pairwise tsDescOrder (get_recent_memories s count user_id) ∧
    (get_recent_memories s count user_id).length ≤ count.toNat ∧
    (∀ m ∈ get_recent_memories s count user_id,
      m ∈ s.memories ∧
      (pyTruthy user_id = true → (m.user_id == user_id) = true)) ∧
    get_recent_memories exState3 2 none = [entryNoUser, entryB] := by
  refine ⟨?_, ?_, ?_, by rfl⟩
  · exact List.Pairwise.sublist (pySliceTo_sublist _ count)
      (List.sorted_insertionSort tsDescOrder _)
  · rw [show get_recent_memories s count user_id =
        pySliceTo (List.insertionSort tsDescOrder
          (if pyTruthy user_id then
            s.memories.filter (fun m => m.user_id == user_id)
          else s.memories)) count from rfl,
      pySliceTo_eq_take _ hc]
    simp [List.length_take]
  · intro m hm
    exact get_recent_memories_mem hm

/-- C6 witness: the properties at a concrete store and count. -/
theorem c6_recency_witness :
    List.Pairwise tsDescOrder (get_recent_memories exState3 5 none) ∧
    (get_recent_memories exState3 5 none).length ≤ (5 : Int).toNat ∧
    (∀ m ∈ get_recent_memories exState3 5 none,
      m ∈ exState3.memories ∧
      (pyTruthy none = true → (m.user_id == none) = true)) ∧
    get_recent_memories exState3 2 none = [entryNoUser, entryB] :=
  c6_recency exState3 5 none (by decide)

/-- C7: the claim states Clear with a user_id removes exactly the entries
whose user_id equals it.  The empty string is a user_id but falsy in Python,
so `clear_memory` takes the remove-everything branch: it deletes an entry of
user "A" even though `some "A" ≠ some ""`. -/
theorem c7_counterexample :
    (clear_memory { memories := [entryA], file := writableFS, warnings := [] }
        (some "")).memories = [] ∧
    entryA.user_id = some "A" ∧ (some "A" : Option String) ≠ some "" :=
  ⟨rfl, rfl, by simp⟩

/-- C7 (amended): Clear with a non-empty user_id removes exactly the entries
whose `user_id` equals it, keeping every other entry in original order;
Clear with no user_id — or with the falsy empty string — removes all
entries; when the storage is writable the resulting sequence is persisted. -/
theorem c7_clear_scoping (s : ServiceState) (u : String) (hu : u ≠ "") :
    (clear_memory s (some u)).memories =
      s.memories.filter (fun m => decide (m.user_id ≠ some u)) ∧
    (clear_memory s none).memories = [] ∧
    (clear_memory s (some "")).memories = [] ∧
    (s.file.writable = true →
      (clear_memory s (some u)).file.content =
        FileContent.stored ((clear_memory s (some u)).memories) ∧
      (clear_memory s none).file.content = FileContent.stored []) := by
  have ht : pyTruthy (some u) = true := by simp [pyTruthy, hu]
  refine ⟨?_, ?_, ?_, ?_⟩
  · rw [clear_memory, if_pos ht, save_memories_memories]
    apply List.filter_congr
    intro m _
    by_cases hm : m.user_id = some u <;> simp [hm, bne]
  · rw [clear_memory, if_neg (by simp [pyTruthy]), save_memories_memories]
  · rw [clear_memory, if_neg (by simp [pyTruthy]), save_memories_memories]
  · intro hw
    constructor
    · rw [clear_memory, if_pos ht, save_memories_memories]
      simp [save_memories, hw]
    · rw [clear_memory, if_neg (by simp [pyTruthy])]
      simp [save_memories, hw]

/-- C7 witness: clearing user "A" from the three-entry store keeps exactly
the other two entries in order and persists them. -/
theorem c7_clear_scoping_witness :
    (clear_memory exState3 (some "A")).memories =
      exState3.memories.filter (fun m => decide (m.user_id ≠ some "A")) ∧
    (clear_memory exState3 none).memories = [] ∧
    (clear_memory exState3 (some "")).memories = [] ∧
    (exState3.file.writable = true →
      (clear_memory exState3 (some "A")).file.content =
        FileContent.stored ((clear_memory exState3 (some "A")).memories) ∧
      (clear_memory exState3 none).file.content = FileContent.stored []) :=
  c7_clear_scoping exState3 "A" (by decide)

/-- C8: Search and RecentMemories called with a non-empty user id only ever
return entries carrying exactly that user id — never a different user's
entry and never an unscoped one. -/
theorem c8_user_scoping (s : ServiceState) (query : Option String)
    (limit count : Int) (filters : Option (List (String × JValue)))
    (u : String) (hu : u ≠ "") :
    (∀ m ∈ search_memory s query (some u) limit filters, m.user_id = some u) ∧
    (∀ m ∈ get_recent_memories s count (some u), m.user_id = some u) := by
  constructor
  · intro m hm
    exact entry_matches_user hu (search_memory_mem hm).1
  · intro m hm
    exact eq_of_beq ((get_recent_memories_mem hm).2 (by simp [pyTruthy, hu]))

/-- C8 witness: the scoping facts at a concrete store and user "A". -/
theorem c8_user_scoping_witness :
    (∀ m ∈ search_memory exState3 none (some "A") 10 none,
      m.user_id = some "A") ∧
    (∀ m ∈ get_recent_memories exState3 5 (some "A"),
      m.user_id = some "A") :=
  c8_user_scoping exState3 none 10 5 none "A" (by decide)

/-- C9: the claim counts distinct non-null user ids.  The generator guards
on Python truthiness, so a present-but-empty user id is skipped: a store
holding one entry with `user_id = ""` reports zero unique users although its
user id is not null. -/
theorem c9_counterexample :
    (get_memory_stats
        { memories := [entryEmptyUser], file := writableFS,
          warnings := [] }).unique_users = 0 ∧
    entryEmptyUser.user_id = some "" ∧ (some "" : Option String) ≠ none :=
  ⟨rfl, rfl, by simp⟩

/-- C9 (amended): Stats reports the total entry count, the number of
distinct user ids that are present and non-empty (Python truthiness), and
the timestamps of the first and last entries in store order; on an empty
store all of total, unique users, oldest and newest degenerate to zero or
`None`. -/
theorem c9_stats (s : ServiceState) :
    (get_memory_stats s).total_memories = s.memories.length ∧
    (get_memory_stats s).unique_users =
      (((s.memories.filterMap fun m => m.user_id).filter
        fun u => decide (u ≠ "")).dedup).length ∧
    (get_memory_stats s).oldest_memory =
      s.memories.head?.map (fun m => m.timestamp) ∧
    (get_memory_stats s).newest_memory =
      s.memories.getLast?.map (fun m => m.timestamp) ∧
    (s.memories = [] →
      get_memory_stats s =
        { total_memories := 0, unique_users := 0, oldest_memory := none,
          newest_memory := none }) := by
  refine ⟨rfl, ?_, rfl, rfl, ?_⟩
  · simp [get_memory_stats, filterMap_truthy_eq]
  · intro h
    simp [get_memory_stats, h]

/-- C10: the empty string as user id is falsy, so Search and RecentMemories
with `user_id = ""` behave as with no user id at all, and Clear with
`user_id = ""` takes the remove-everything branch and empties the store. -/
theorem c10_empty_user_id (s : ServiceState) (query : Option String)
    (limit count : Int) (filters : Option (List (String × JValue))) :
    search_memory s query (some "") limit filters =
      search_memory s query none limit filters ∧
    get_recent_memories s count (some "") =
      get_recent_memories s count none ∧
    clear_memory s (some "") = clear_memory s none ∧
    (clear_memory s (some "")).memories = [] := by
  have hpred : entry_matches query (some "") filters =
      entry_matches query none filters := by
    funext m
    rw [entry_matches_eq, entry_matches_eq]
    simp [pyTruthy]
  refine ⟨?_, ?_, ?_, ?_⟩
  · unfold search_memory
    rw [hpred]
  · unfold get_recent_memories
    simp [pyTruthy]
  · unfold clear_memory
    simp [pyTruthy]
  · rw [clear_memory, if_neg (by simp [pyTruthy]), save_memories_memories]

end MemoryServiceModel
